import Mathlib

/-!
Shallow embedding of
`spikingjelly/activation_based/triton_kernel/neuron_kernel/integrate_and_fire.py`.

Tensors are modelled as total functions `ℕ → ℕ → ℚ` over (time index, flattened
channel index); device floating-point arithmetic is idealized as exact rational
arithmetic.  The Triton launch grid is modelled explicitly: each program id
(block) performs masked loads (out-of-range columns read as zero), runs the
per-lane recurrence, and performs masked stores (out-of-range columns are left
untouched); the full launch folds the blocks over an initial memory state, so
that block-order and block-size questions are statable.
-/

namespace SpikingJelly

/-- `s = (h >= v_threshold).to(dtype)` — forward kernel line 62 (also backward
kernel line 172).  The comparison is inclusive. -/
def heaviside (v_threshold h : ℚ) : ℚ := if v_threshold ≤ h then 1 else 0

/-- The reset update of the running register, forward kernel lines 63-66:
`if soft_reset: v = h - s*v_threshold else: v = s*v_reset + (1.-s)*h`. -/
def resetPotential (v_threshold v_reset : ℚ) (soft_reset : Bool) (h : ℚ) : ℚ :=
  if soft_reset then h - heaviside v_threshold h * v_threshold
  else heaviside v_threshold h * v_reset + (1 - heaviside v_threshold h) * h

/-- Value of the running potential register of one lane just before loop step
`t` of the forward kernel (line 48 initializes it to the loaded `v_init`;
lines 61-66 update it once per step). -/
def vPre (v_threshold v_reset : ℚ) (soft_reset : Bool) (x : ℕ → ℚ) (v0 : ℚ) :
    ℕ → ℚ
  | 0 => v0
  | t + 1 =>
      resetPotential v_threshold v_reset soft_reset
        (vPre v_threshold v_reset soft_reset x v0 t + x t)

/-- `h = v + x` at step `t` of the forward loop (line 61). -/
def hVal (v_threshold v_reset : ℚ) (soft_reset : Bool) (x : ℕ → ℚ) (v0 : ℚ)
    (t : ℕ) : ℚ :=
  vPre v_threshold v_reset soft_reset x v0 t + x t

/-- `s` stored into `s_seq[t]` (lines 62, 76). -/
def sVal (v_threshold v_reset : ℚ) (soft_reset : Bool) (x : ℕ → ℚ) (v0 : ℚ)
    (t : ℕ) : ℚ :=
  heaviside v_threshold (hVal v_threshold v_reset soft_reset x v0 t)

/-- `v` stored into `v_seq[t]` (lines 63-66, 85): the register value after the
step-`t` update. -/
def vVal (v_threshold v_reset : ℚ) (soft_reset : Bool) (x : ℕ → ℚ) (v0 : ℚ)
    (t : ℕ) : ℚ :=
  vPre v_threshold v_reset soft_reset x v0 (t + 1)

theorem vVal_eq_reset (v_threshold v_reset : ℚ) (soft_reset : Bool)
    (x : ℕ → ℚ) (v0 : ℚ) (t : ℕ) :
    vVal v_threshold v_reset soft_reset x v0 t =
      resetPotential v_threshold v_reset soft_reset
        (hVal v_threshold v_reset soft_reset x v0 t) := rfl

/-! ### Masked block loads

`tl.load(..., boundary_check=(1,), padding_option="zero")` on a block pointer of
logical shape `(T, NCL)`: a lane whose global column index is `≥ NCL` reads
zero.  Row indices produced by the loop are always in range. -/

/-- The `x` (or `grad_s`, `grad_v`, `h`) column seen by the lane for global
column `j`: the real column when `j < N`, zero padding otherwise. -/
def laneX (N : ℕ) (X : ℕ → ℕ → ℚ) (j : ℕ) : ℕ → ℚ :=
  fun t => if j < N then X t j else 0

/-- The `v_init` value seen by the lane for global column `j` (line 48). -/
def laneV0 (N : ℕ) (V0 : ℕ → ℚ) (j : ℕ) : ℚ :=
  if j < N then V0 j else 0

/-! ### Memory model of the forward launch -/

/-- The three output buffers written by the forward kernel. -/
@[ext]
structure FwdMem where
  s : ℕ → ℕ → ℚ
  v : ℕ → ℕ → ℚ
  h : ℕ → ℕ → ℚ

/-- Aggregate effect of the masked stores (`boundary_check=(1,)`) performed by
block `pid` over the whole `t`-loop on one output buffer: position `(t, j)` is
overwritten exactly when `t` is a loop index, `j` is a lane of this block and
`j` is a valid column. -/
def blockWrite (N B T pid : ℕ) (val : ℕ → ℕ → ℚ) (old : ℕ → ℕ → ℚ) :
    ℕ → ℕ → ℚ :=
  fun t j =>
    if t < T ∧ j < N ∧ pid * B ≤ j ∧ j < pid * B + B then val t j else old t j

/-- Execution of one forward block (`_multistep_if_forward_kernel` for one
`program_id`): every lane runs the scalar recurrence on its masked loads, and
the results are masked-stored into `s_seq`, `v_seq` and (when
`save_intermediates`) `h_seq`. -/
def runFwdBlock (v_threshold v_reset : ℚ) (soft_reset save_intermediates : Bool)
    (X : ℕ → ℕ → ℚ) (V0 : ℕ → ℚ) (T N B : ℕ) (M : FwdMem) (pid : ℕ) : FwdMem where
  s := blockWrite N B T pid
    (fun t j => sVal v_threshold v_reset soft_reset (laneX N X j) (laneV0 N V0 j) t) M.s
  v := blockWrite N B T pid
    (fun t j => vVal v_threshold v_reset soft_reset (laneX N X j) (laneV0 N V0 j) t) M.v
  h := if save_intermediates then
      blockWrite N B T pid
        (fun t j => hVal v_threshold v_reset soft_reset (laneX N X j) (laneV0 N V0 j) t) M.h
    else M.h

/-- A launch of the forward kernel over a list of program ids. -/
def runFwdGrid (v_threshold v_reset : ℚ) (soft_reset save_intermediates : Bool)
    (X : ℕ → ℕ → ℚ) (V0 : ℕ → ℚ) (T N B : ℕ) (M : FwdMem) (pids : List ℕ) :
    FwdMem :=
  pids.foldl (runFwdBlock v_threshold v_reset soft_reset save_intermediates X V0 T N B) M

/-- `triton.cdiv`. -/
def cdiv (a b : ℕ) : ℕ := (a + b - 1) / b

/-- `multistep_if_forward` (source lines 235-263): launches the forward kernel
with `save_intermediates=True` on the grid `cdiv(NCL, BLOCK_NCL)`.  `M` is the
initial content of the freshly allocated (`torch.empty_like`, hence arbitrary)
output buffers. -/
def multistep_if_forward (v_threshold v_reset : ℚ) (soft_reset : Bool)
    (X : ℕ → ℕ → ℚ) (V0 : ℕ → ℚ) (T N B : ℕ) (M : FwdMem) : FwdMem :=
  runFwdGrid v_threshold v_reset soft_reset true X V0 T N B M
    (List.range (cdiv N B))

/-- `multistep_if_inference` (source lines 205-232): same launch with
`save_intermediates=False` and no `h_seq` buffer. -/
def multistep_if_inference (v_threshold v_reset : ℚ) (soft_reset : Bool)
    (X : ℕ → ℕ → ℚ) (V0 : ℕ → ℚ) (T N B : ℕ) (M : FwdMem) : FwdMem :=
  runFwdGrid v_threshold v_reset soft_reset false X V0 T N B M
    (List.range (cdiv N B))

/-! ### Block-coverage arithmetic -/

theorem block_cover_iff {B : ℕ} (hB : 0 < B) (pid j : ℕ) :
    (pid * B ≤ j ∧ j < pid * B + B) ↔ j / B = pid := by
  constructor
  · rintro ⟨h1, h2⟩
    exact Nat.div_eq_of_lt_le h1 (by rw [Nat.succ_mul]; exact h2)
  · rintro rfl
    refine ⟨Nat.div_mul_le_self j B, ?_⟩
    have e := Nat.div_add_mod j B
    have m := Nat.mod_lt j hB
    calc j = B * (j / B) + j % B := e.symm
    _ < B * (j / B) + B := by omega
    _ = j / B * B + B := by rw [Nat.mul_comm]

theorem div_mem_range_cdiv {B N j : ℕ} (hB : 0 < B) (hj : j < N) :
    j / B ∈ List.range (cdiv N B) := by
  rw [List.mem_range]
  have hN : 1 ≤ N := by omega
  have e : cdiv N B = (N - 1) / B + 1 := by
    unfold cdiv
    have : N + B - 1 = (N - 1) + B := by omega
    rw [this, Nat.add_div_right _ hB]
  rw [e]
  have : j / B ≤ (N - 1) / B := Nat.div_le_div_right (by omega)
  omega

/-! ### Pointwise characterization of the forward launch -/

theorem blockWrite_char {B : ℕ} (hB : 0 < B) (N T pid : ℕ)
    (val old : ℕ → ℕ → ℚ) (t j : ℕ) :
    blockWrite N B T pid val old t j =
      if t < T ∧ j < N ∧ j / B = pid then val t j else old t j := by
  simp only [blockWrite, block_cover_iff hB]

theorem runFwdBlock_s {B : ℕ} (hB : 0 < B) (v_threshold v_reset : ℚ)
    (soft_reset save_intermediates : Bool) (X : ℕ → ℕ → ℚ) (V0 : ℕ → ℚ)
    (T N : ℕ) (M : FwdMem) (pid t j : ℕ) :
    (runFwdBlock v_threshold v_reset soft_reset save_intermediates X V0 T N B M pid).s t j =
      if t < T ∧ j < N ∧ j / B = pid then
        sVal v_threshold v_reset soft_reset (laneX N X j) (laneV0 N V0 j) t
      else M.s t j := by
  simp only [runFwdBlock]
  rw [blockWrite_char hB]

theorem runFwdBlock_v {B : ℕ} (hB : 0 < B) (v_threshold v_reset : ℚ)
    (soft_reset save_intermediates : Bool) (X : ℕ → ℕ → ℚ) (V0 : ℕ → ℚ)
    (T N : ℕ) (M : FwdMem) (pid t j : ℕ) :
    (runFwdBlock v_threshold v_reset soft_reset save_intermediates X V0 T N B M pid).v t j =
      if t < T ∧ j < N ∧ j / B = pid then
        vVal v_threshold v_reset soft_reset (laneX N X j) (laneV0 N V0 j) t
      else M.v t j := by
  simp only [runFwdBlock]
  rw [blockWrite_char hB]

theorem runFwdBlock_h {B : ℕ} (hB : 0 < B) (v_threshold v_reset : ℚ)
    (soft_reset save_intermediates : Bool) (X : ℕ → ℕ → ℚ) (V0 : ℕ → ℚ)
    (T N : ℕ) (M : FwdMem) (pid t j : ℕ) :
    (runFwdBlock v_threshold v_reset soft_reset save_intermediates X V0 T N B M pid).h t j =
      if save_intermediates = true ∧ t < T ∧ j < N ∧ j / B = pid then
        hVal v_threshold v_reset soft_reset (laneX N X j) (laneV0 N V0 j) t
      else M.h t j := by
  cases save_intermediates with
  | false => simp [runFwdBlock]
  | true =>
    simp only [runFwdBlock, if_true, Bool.true_eq, true_and]
    rw [blockWrite_char hB]

theorem runFwdGrid_s {B : ℕ} (hB : 0 < B) (v_threshold v_reset : ℚ)
    (soft_reset save_intermediates : Bool) (X : ℕ → ℕ → ℚ) (V0 : ℕ → ℚ)
    (T N : ℕ) (M : FwdMem) (pids : List ℕ) (t j : ℕ) :
    (runFwdGrid v_threshold v_reset soft_reset save_intermediates X V0 T N B M pids).s t j =
      if t < T ∧ j < N ∧ j / B ∈ pids then
        sVal v_threshold v_reset soft_reset (laneX N X j) (laneV0 N V0 j) t
      else M.s t j := by
  induction pids generalizing M with
  | nil => simp [runFwdGrid]
  | cons p ps ih =>
    rw [runFwdGrid, List.foldl_cons, ← runFwdGrid, ih, runFwdBlock_s hB]
    by_cases ht : t < T <;> by_cases hj : j < N <;> by_cases hm : j / B ∈ ps <;>
      by_cases hp : j / B = p <;> simp [ht, hj, hm, hp, List.mem_cons]

theorem runFwdGrid_v {B : ℕ} (hB : 0 < B) (v_threshold v_reset : ℚ)
    (soft_reset save_intermediates : Bool) (X : ℕ → ℕ → ℚ) (V0 : ℕ → ℚ)
    (T N : ℕ) (M : FwdMem) (pids : List ℕ) (t j : ℕ) :
    (runFwdGrid v_threshold v_reset soft_reset save_intermediates X V0 T N B M pids).v t j =
      if t < T ∧ j < N ∧ j / B ∈ pids then
        vVal v_threshold v_reset soft_reset (laneX N X j) (laneV0 N V0 j) t
      else M.v t j := by
  induction pids generalizing M with
  | nil => simp [runFwdGrid]
  | cons p ps ih =>
    rw [runFwdGrid, List.foldl_cons, ← runFwdGrid, ih, runFwdBlock_v hB]
    by_cases ht : t < T <;> by_cases hj : j < N <;> by_cases hm : j / B ∈ ps <;>
      by_cases hp : j / B = p <;> simp [ht, hj, hm, hp, List.mem_cons]

theorem runFwdGrid_h {B : ℕ} (hB : 0 < B) (v_threshold v_reset : ℚ)
    (soft_reset save_intermediates : Bool) (X : ℕ → ℕ → ℚ) (V0 : ℕ → ℚ)
    (T N : ℕ) (M : FwdMem) (pids : List ℕ) (t j : ℕ) :
    (runFwdGrid v_threshold v_reset soft_reset save_intermediates X V0 T N B M pids).h t j =
      if save_intermediates = true ∧ t < T ∧ j < N ∧ j / B ∈ pids then
        hVal v_threshold v_reset soft_reset (laneX N X j) (laneV0 N V0 j) t
      else M.h t j := by
  induction pids generalizing M with
  | nil => simp [runFwdGrid]
  | cons p ps ih =>
    rw [runFwdGrid, List.foldl_cons, ← runFwdGrid, ih, runFwdBlock_h hB]
    by_cases hs : save_intermediates = true <;> by_cases ht : t < T <;>
      by_cases hj : j < N <;> by_cases hm : j / B ∈ ps <;>
      by_cases hp : j / B = p <;> simp [hs, ht, hj, hm, hp, List.mem_cons]

/-! ### Backward kernel, per lane

`_multistep_if_backward_kernel` (source lines 108-202): the reverse loop
`for t in tl.static_range(T - 1, -1, -1)` carries `grad_v_acc`, initialized to
zero (line 127) and overwritten with `grad_h` at the end of each step
(line 181).  Hence the accumulator entering step `t` is zero when `t = T - 1`
and the `grad_h` of step `t + 1` otherwise, which is how `gradH` below
recurses. -/

/-- `tl.fma a b c = a * b + c` (exact in the rational idealization). -/
def fma (a b c : ℚ) : ℚ := a * b + c

/-- The `grad_h` value computed at reverse-loop step `t` (source lines
162-181) for one lane, as a function of the `grad_s`, `grad_v` and `h`
columns. -/
def gradH (v_threshold v_reset : ℚ) (soft_reset detach_reset : Bool)
    (sg_fn : ℚ → ℚ) (grad_s grad_v h : ℕ → ℚ) (T : ℕ) (t : ℕ) : ℚ :=
  let grad_v_acc : ℚ :=
    if hlt : t + 1 < T then
      gradH v_threshold v_reset soft_reset detach_reset sg_fn grad_s grad_v h
        T (t + 1)
    else 0
  let sg := sg_fn (h t - v_threshold)
  let grad_v_combined := grad_v t + grad_v_acc
  if soft_reset then
    if detach_reset then fma (grad_s t) sg grad_v_combined
    else fma (grad_s t - v_threshold * grad_v_combined) sg grad_v_combined
  else
    let s := heaviside v_threshold (h t)
    if detach_reset then fma (grad_s t) sg (grad_v_combined * (1 - s))
    else
      fma (fma grad_v_combined (v_reset - h t) (grad_s t)) sg
        (grad_v_combined * (1 - s))
termination_by T - t
decreasing_by omega

/-- The accumulator value stored into `grad_v_init` after the whole reverse
loop (lines 194-202): still zero when `T = 0` (the loop body never runs), and
otherwise the `grad_h` of the last processed step, `t = 0`. -/
def gradVInit (v_threshold v_reset : ℚ) (soft_reset detach_reset : Bool)
    (sg_fn : ℚ → ℚ) (grad_s grad_v h : ℕ → ℚ) (T : ℕ) : ℚ :=
  if T = 0 then 0
  else gradH v_threshold v_reset soft_reset detach_reset sg_fn grad_s grad_v h T 0

/-! ### Memory model of the backward launch -/

/-- The two output buffers written by the backward kernel. -/
@[ext]
structure BwdMem where
  dx : ℕ → ℕ → ℚ
  dv0 : ℕ → ℚ

/-- Masked store of the single row `grad_v_init` (source lines 194-202),
`boundary_check=(1,)` on the column axis. -/
def blockWriteRow (N B pid : ℕ) (val : ℕ → ℚ) (old : ℕ → ℚ) : ℕ → ℚ :=
  fun j => if j < N ∧ pid * B ≤ j ∧ j < pid * B + B then val j else old j

/-- Execution of one backward block (`_multistep_if_backward_kernel` for one
`program_id`): each lane runs the reverse recurrence on its masked loads of
`grad_s_seq`, `grad_v_seq` and `h_seq`, masked-storing `grad_h` into
`grad_x_seq[t]` at every step (line 192) and the final accumulator into
`grad_v_init` (line 202). -/
def runBwdBlock (v_threshold v_reset : ℚ) (soft_reset detach_reset : Bool)
    (sg_fn : ℚ → ℚ) (dS dV H : ℕ → ℕ → ℚ) (T N B : ℕ) (M : BwdMem) (pid : ℕ) :
    BwdMem where
  dx := blockWrite N B T pid
    (fun t j => gradH v_threshold v_reset soft_reset detach_reset sg_fn
      (laneX N dS j) (laneX N dV j) (laneX N H j) T t) M.dx
  dv0 := blockWriteRow N B pid
    (fun j => gradVInit v_threshold v_reset soft_reset detach_reset sg_fn
      (laneX N dS j) (laneX N dV j) (laneX N H j) T) M.dv0

/-- A launch of the backward kernel over a list of program ids. -/
def runBwdGrid (v_threshold v_reset : ℚ) (soft_reset detach_reset : Bool)
    (sg_fn : ℚ → ℚ) (dS dV H : ℕ → ℕ → ℚ) (T N B : ℕ) (M : BwdMem)
    (pids : List ℕ) : BwdMem :=
  pids.foldl
    (runBwdBlock v_threshold v_reset soft_reset detach_reset sg_fn dS dV H T N B) M

/-- `multistep_if_backward` (source lines 266-298): launches the backward
kernel on the grid `cdiv(NCL, BLOCK_NCL)`.  `M` is the initial content of the
freshly allocated output buffers. -/
def multistep_if_backward (v_threshold v_reset : ℚ)
    (soft_reset detach_reset : Bool) (sg_fn : ℚ → ℚ) (dS dV H : ℕ → ℕ → ℚ)
    (T N B : ℕ) (M : BwdMem) : BwdMem :=
  runBwdGrid v_threshold v_reset soft_reset detach_reset sg_fn dS dV H T N B M
    (List.range (cdiv N B))

/-! ### Pointwise characterization of the backward launch -/

theorem blockWriteRow_char {B : ℕ} (hB : 0 < B) (N pid : ℕ)
    (val old : ℕ → ℚ) (j : ℕ) :
    blockWriteRow N B pid val old j =
      if j < N ∧ j / B = pid then val j else old j := by
  simp only [blockWriteRow, block_cover_iff hB]

theorem runBwdGrid_dx {B : ℕ} (hB : 0 < B) (v_threshold v_reset : ℚ)
    (soft_reset detach_reset : Bool) (sg_fn : ℚ → ℚ) (dS dV H : ℕ → ℕ → ℚ)
    (T N : ℕ) (M : BwdMem) (pids : List ℕ) (t j : ℕ) :
    (runBwdGrid v_threshold v_reset soft_reset detach_reset sg_fn dS dV H T N B M pids).dx t j =
      if t < T ∧ j < N ∧ j / B ∈ pids then
        gradH v_threshold v_reset soft_reset detach_reset sg_fn
          (laneX N dS j) (laneX N dV j) (laneX N H j) T t
      else M.dx t j := by
  induction pids generalizing M with
  | nil => simp [runBwdGrid]
  | cons p ps ih =>
    rw [runBwdGrid, List.foldl_cons, ← runBwdGrid, ih]
    simp only [runBwdBlock]
    rw [blockWrite_char hB]
    by_cases ht : t < T <;> by_cases hj : j < N <;> by_cases hm : j / B ∈ ps <;>
      by_cases hp : j / B = p <;> simp [ht, hj, hm, hp, List.mem_cons]

theorem runBwdGrid_dv0 {B : ℕ} (hB : 0 < B) (v_threshold v_reset : ℚ)
    (soft_reset detach_reset : Bool) (sg_fn : ℚ → ℚ) (dS dV H : ℕ → ℕ → ℚ)
    (T N : ℕ) (M : BwdMem) (pids : List ℕ) (j : ℕ) :
    (runBwdGrid v_threshold v_reset soft_reset detach_reset sg_fn dS dV H T N B M pids).dv0 j =
      if j < N ∧ j / B ∈ pids then
        gradVInit v_threshold v_reset soft_reset detach_reset sg_fn
          (laneX N dS j) (laneX N dV j) (laneX N H j) T
      else M.dv0 j := by
  induction pids generalizing M with
  | nil => simp [runBwdGrid]
  | cons p ps ih =>
    rw [runBwdGrid, List.foldl_cons, ← runBwdGrid, ih]
    simp only [runBwdBlock]
    rw [blockWriteRow_char hB]
    by_cases hj : j < N <;> by_cases hm : j / B ∈ ps <;>
      by_cases hp : j / B = p <;> simp [hj, hm, hp, List.mem_cons]

/-! ### Differentiable op wrapper (`MultiStepIFNodePTT`, source lines 301-337) -/

/-- The context saved by `MultiStepIFNodePTT.forward` for the paired backward
call: `ctx.save_for_backward(h_seq)` plus the scalar fields (lines 316-321). -/
structure IFContext where
  h_seq : ℕ → ℕ → ℚ
  v_threshold : ℚ
  v_reset : ℚ
  soft_reset : Bool
  detach_reset : Bool
  sg_fn : ℚ → ℚ

/-- Result of `MultiStepIFNodePTT.forward`: the two returned tensors plus the
saved autograd context (`none` when the inference path ran and nothing was
saved). -/
structure FwdResult where
  s_seq : ℕ → ℕ → ℚ
  v_seq : ℕ → ℕ → ℚ
  ctx : Option IFContext

/-- `MultiStepIFNodePTT.forward` (source lines 306-326).  `needs_input_grad`
models `any(ctx.needs_input_grad)`; the Python `None` for `v_reset` is
`Option.none`.  `T N B` are the shape-derived launch parameters and `M` the
content of the freshly allocated output buffers. -/
def MultiStepIFNodePTT_forward (x_seq : ℕ → ℕ → ℚ) (v_init : ℕ → ℚ)
    (v_threshold : ℚ) (v_reset : Option ℚ) (detach_reset : Bool)
    (sg_fn : ℚ → ℚ) (needs_input_grad : Bool) (T N B : ℕ) (M : FwdMem) :
    FwdResult :=
  let soft_reset := v_reset.isNone
  let vr := v_reset.getD 0
  if needs_input_grad then
    let out := multistep_if_forward v_threshold vr soft_reset x_seq v_init T N B M
    { s_seq := out.s, v_seq := out.v,
      ctx := some { h_seq := out.h, v_threshold := v_threshold, v_reset := vr,
                    soft_reset := soft_reset, detach_reset := detach_reset,
                    sg_fn := sg_fn } }
  else
    let out := multistep_if_inference v_threshold vr soft_reset x_seq v_init T N B M
    { s_seq := out.s, v_seq := out.v, ctx := none }

/-- Result of `MultiStepIFNodePTT.backward` (line 337): gradients for `x_seq`
and `v_init`, and `None` markers for the four non-tensor forward inputs
(`v_threshold`, `v_reset`, `detach_reset`, `sg_fn`). -/
structure BwdResult where
  grad_x_seq : ℕ → ℕ → ℚ
  grad_v_init : ℕ → ℚ
  grad_v_threshold : Option ℚ
  grad_v_reset : Option ℚ
  grad_detach_reset : Option ℚ
  grad_sg_fn : Option ℚ

/-- `MultiStepIFNodePTT.backward` (source lines 331-337): invokes
`multistep_if_backward` with the retained context and returns the two tensor
gradients plus four `None` markers. -/
def MultiStepIFNodePTT_backward (ctx : IFContext)
    (grad_s_seq grad_v_seq : ℕ → ℕ → ℚ) (T N B : ℕ) (M : BwdMem) : BwdResult :=
  let out := multistep_if_backward ctx.v_threshold ctx.v_reset ctx.soft_reset
    ctx.detach_reset ctx.sg_fn grad_s_seq grad_v_seq ctx.h_seq T N B M
  { grad_x_seq := out.dx, grad_v_init := out.dv0,
    grad_v_threshold := none, grad_v_reset := none,
    grad_detach_reset := none, grad_sg_fn := none }

/-! ### Concrete inputs used by witness theorems -/

/-- A concrete input current sequence. -/
def exX : ℕ → ℕ → ℚ := fun t j => (t : ℚ) / 3 + (j : ℚ) / 7

/-- A concrete initial potential. -/
def exV0 : ℕ → ℚ := fun j => (j : ℚ) / 2

/-- Concrete garbage in a freshly allocated forward buffer. -/
def exM : FwdMem := ⟨fun _ _ => 77, fun _ _ => 77, fun _ _ => 77⟩

/-- Concrete garbage in a freshly allocated backward buffer. -/
def exMB : BwdMem := ⟨fun _ _ => 55, fun _ => 55⟩

/-- A concrete surrogate-gradient function. -/
def exSg : ℚ → ℚ := fun u => 1 - u * u

/-! ### C1 -/

/-- C1: for every input, initial potential, threshold, reset value and
soft-reset flag, the launched forward pass stores, at every valid `(t, j)`,
exactly `h = v_prev + x[t]` (with `v_prev = V0` at `t = 0` and the stored
`V[t-1]` afterwards), `s = 1` iff `h ≥ v_threshold` (inclusive comparison,
else `0`), and `v = h - s*v_threshold` under soft reset,
`v = s*v_reset + (1-s)*h` under hard reset. -/
theorem C1_forward_step_equations (v_threshold v_reset : ℚ) (soft_reset : Bool)
    (X : ℕ → ℕ → ℚ) (V0 : ℕ → ℚ) (T N B : ℕ) (M : FwdMem)
    (hB : 0 < B) (j : ℕ) (hj : j < N) :
    (0 < T →
      (multistep_if_forward v_threshold v_reset soft_reset X V0 T N B M).h 0 j
        = V0 j + X 0 j) ∧
    (∀ t, t + 1 < T →
      (multistep_if_forward v_threshold v_reset soft_reset X V0 T N B M).h (t + 1) j
        = (multistep_if_forward v_threshold v_reset soft_reset X V0 T N B M).v t j
            + X (t + 1) j) ∧
    (∀ t, t < T →
      (multistep_if_forward v_threshold v_reset soft_reset X V0 T N B M).s t j
        = if v_threshold ≤
              (multistep_if_forward v_threshold v_reset soft_reset X V0 T N B M).h t j
          then 1 else 0) ∧
    (∀ t, t < T →
      (multistep_if_forward v_threshold v_reset soft_reset X V0 T N B M).v t j
        = if soft_reset then
            (multistep_if_forward v_threshold v_reset soft_reset X V0 T N B M).h t j
              - (multistep_if_forward v_threshold v_reset soft_reset X V0 T N B M).s t j
                  * v_threshold
          else
            (multistep_if_forward v_threshold v_reset soft_reset X V0 T N B M).s t j
                * v_reset
              + (1 -
                  (multistep_if_forward v_threshold v_reset soft_reset X V0 T N B M).s t j)
                * (multistep_if_forward v_threshold v_reset soft_reset X V0 T N B M).h t j) := by
  have hmem : j / B ∈ List.range (cdiv N B) := div_mem_range_cdiv hB hj
  refine ⟨fun hT => ?_, fun t ht => ?_, fun t ht => ?_, fun t ht => ?_⟩
  · rw [multistep_if_forward, runFwdGrid_h hB]
    simp [hT, hj, hmem, hVal, vPre, laneX, laneV0]
  · rw [multistep_if_forward, runFwdGrid_h hB, runFwdGrid_v hB]
    have ht' : t < T := by omega
    simp [ht, ht', hj, hmem, hVal, vVal, laneX]
  · rw [multistep_if_forward, runFwdGrid_s hB, runFwdGrid_h hB]
    simp [ht, hj, hmem, sVal, heaviside]
  · rw [multistep_if_forward, runFwdGrid_v hB, runFwdGrid_s hB, runFwdGrid_h hB]
    simp only [ht, hj, hmem, and_self, if_true, true_and, and_true]
    simp [vVal, vPre, resetPotential, hVal, sVal]

/-- Witness for C1 at concrete inputs. -/
theorem C1_witness :
    (0 : ℕ) < 2 ∧ (1 : ℕ) < 3 ∧
    ((0 < 4 →
      (multistep_if_forward 1 0 true exX exV0 4 3 2 exM).h 0 1
        = exV0 1 + exX 0 1) ∧
    (∀ t, t + 1 < 4 →
      (multistep_if_forward 1 0 true exX exV0 4 3 2 exM).h (t + 1) 1
        = (multistep_if_forward 1 0 true exX exV0 4 3 2 exM).v t 1 + exX (t + 1) 1) ∧
    (∀ t, t < 4 →
      (multistep_if_forward 1 0 true exX exV0 4 3 2 exM).s t 1
        = if 1 ≤ (multistep_if_forward 1 0 true exX exV0 4 3 2 exM).h t 1
          then 1 else 0) ∧
    (∀ t, t < 4 →
      (multistep_if_forward 1 0 true exX exV0 4 3 2 exM).v t 1
        = if (true : Bool) then
            (multistep_if_forward 1 0 true exX exV0 4 3 2 exM).h t 1
              - (multistep_if_forward 1 0 true exX exV0 4 3 2 exM).s t 1 * 1
          else
            (multistep_if_forward 1 0 true exX exV0 4 3 2 exM).s t 1 * 0
              + (1 - (multistep_if_forward 1 0 true exX exV0 4 3 2 exM).s t 1)
                * (multistep_if_forward 1 0 true exX exV0 4 3 2 exM).h t 1)) :=
  ⟨by decide, by decide,
    C1_forward_step_equations 1 0 true exX exV0 4 3 2 exM (by decide) 1 (by decide)⟩

/-! ### C2, C3, C10 -/

theorem multistep_if_backward_dx_eq {B : ℕ} (hB : 0 < B)
    (v_threshold v_reset : ℚ) (soft_reset detach_reset : Bool) (sg_fn : ℚ → ℚ)
    (dS dV H : ℕ → ℕ → ℚ) (T N : ℕ) (M : BwdMem) {t j : ℕ}
    (ht : t < T) (hj : j < N) :
    (multistep_if_backward v_threshold v_reset soft_reset detach_reset sg_fn
        dS dV H T N B M).dx t j =
      gradH v_threshold v_reset soft_reset detach_reset sg_fn
        (laneX N dS j) (laneX N dV j) (laneX N H j) T t := by
  rw [multistep_if_backward, runBwdGrid_dx hB]
  simp [ht, hj, div_mem_range_cdiv hB hj]

/-- C2: the backward pass stores at every valid `(t, j)` the gradient
`dX[t] = dH`, where `dH` follows the 2×2 case split on
`(soft_reset, detach_reset)` applied to `combined = dV[t] + accumulator`, with
the accumulator equal to the `dH` carried from step `t+1` (zero at the last
timestep), `sg = sg_fn(H[t] - v_threshold)` and, in the hard-reset branch,
`s` reconstructed from `H[t] ≥ v_threshold`. -/
theorem C2_backward_step_equations (v_threshold v_reset : ℚ)
    (soft_reset detach_reset : Bool) (sg_fn : ℚ → ℚ) (dS dV H : ℕ → ℕ → ℚ)
    (T N B : ℕ) (M : BwdMem) (hB : 0 < B) (t j : ℕ) (ht : t < T) (hj : j < N)
    (acc combined sgv s : ℚ)
    (hacc : acc = (if t + 1 < T then
      (multistep_if_backward v_threshold v_reset soft_reset detach_reset sg_fn
        dS dV H T N B M).dx (t + 1) j else 0))
    (hcomb : combined = dV t j + acc)
    (hsgv : sgv = sg_fn (H t j - v_threshold))
    (hs : s = if v_threshold ≤ H t j then 1 else 0) :
    (multistep_if_backward v_threshold v_reset soft_reset detach_reset sg_fn
        dS dV H T N B M).dx t j =
      if soft_reset then
        if detach_reset then combined + dS t j * sgv
        else combined + (dS t j - v_threshold * combined) * sgv
      else
        if detach_reset then combined * (1 - s) + dS t j * sgv
        else combined * (1 - s)
          + (dS t j + combined * (v_reset - H t j)) * sgv := by
  subst hacc hcomb hsgv hs
  rw [multistep_if_backward_dx_eq hB v_threshold v_reset soft_reset detach_reset
    sg_fn dS dV H T N M ht hj]
  rw [gradH]
  by_cases hlt : t + 1 < T
  · rw [multistep_if_backward_dx_eq hB v_threshold v_reset soft_reset
      detach_reset sg_fn dS dV H T N M hlt hj]
    simp only [hlt, dif_pos, if_pos]
    cases soft_reset <;> cases detach_reset <;>
      simp [fma, heaviside, laneX, hj] <;> ring
  · simp only [hlt, dif_neg, if_neg, not_false_iff]
    cases soft_reset <;> cases detach_reset <;>
      simp [fma, heaviside, laneX, hj, hlt] <;> ring

/-- Witness for C2 at concrete inputs (hard reset, gradient through reset). -/
theorem C2_witness :
    (0 : ℕ) < 2 ∧ (1 : ℕ) < 3 ∧ (0 : ℕ) < 2 ∧
    (multistep_if_backward 1 0 false false exSg exX exX exX 3 3 2 exMB).dx 1 0 =
      (if (false : Bool) then
        if (false : Bool) then
          (exX 1 0 + (if 1 + 1 < 3 then
            (multistep_if_backward 1 0 false false exSg exX exX exX 3 3 2 exMB).dx 2 0
            else 0)) + exX 1 0 * exSg (exX 1 0 - 1)
        else (exX 1 0 + (if 1 + 1 < 3 then
            (multistep_if_backward 1 0 false false exSg exX exX exX 3 3 2 exMB).dx 2 0
            else 0))
          + (exX 1 0 - 1 * (exX 1 0 + (if 1 + 1 < 3 then
              (multistep_if_backward 1 0 false false exSg exX exX exX 3 3 2 exMB).dx 2 0
              else 0))) * exSg (exX 1 0 - 1)
      else
        if (false : Bool) then
          (exX 1 0 + (if 1 + 1 < 3 then
            (multistep_if_backward 1 0 false false exSg exX exX exX 3 3 2 exMB).dx 2 0
            else 0)) * (1 - (if (1 : ℚ) ≤ exX 1 0 then 1 else 0))
            + exX 1 0 * exSg (exX 1 0 - 1)
        else (exX 1 0 + (if 1 + 1 < 3 then
            (multistep_if_backward 1 0 false false exSg exX exX exX 3 3 2 exMB).dx 2 0
            else 0)) * (1 - (if (1 : ℚ) ≤ exX 1 0 then 1 else 0))
          + (exX 1 0 + (exX 1 0 + (if 1 + 1 < 3 then
              (multistep_if_backward 1 0 false false exSg exX exX exX 3 3 2 exMB).dx 2 0
              else 0)) * (0 - exX 1 0)) * exSg (exX 1 0 - 1)) :=
  ⟨by decide, by decide, by decide,
    C2_backward_step_equations 1 0 false false exSg exX exX exX 3 3 2 exMB
      (by decide) 1 0 (by decide) (by decide) _ _ _ _ rfl rfl rfl rfl⟩

/-- C3: the returned gradient w.r.t. the initial potential equals the carried
accumulator after the full reverse loop, i.e. the `dH` stored at `t = 0`, for
every `T ≥ 1`. -/
theorem C3_grad_v_init_is_last_dH (v_threshold v_reset : ℚ)
    (soft_reset detach_reset : Bool) (sg_fn : ℚ → ℚ) (dS dV H : ℕ → ℕ → ℚ)
    (T N B : ℕ) (M : BwdMem) (hB : 0 < B) (j : ℕ) (hj : j < N) (hT : 0 < T) :
    (multistep_if_backward v_threshold v_reset soft_reset detach_reset sg_fn
        dS dV H T N B M).dv0 j =
      (multistep_if_backward v_threshold v_reset soft_reset detach_reset sg_fn
        dS dV H T N B M).dx 0 j := by
  rw [multistep_if_backward_dx_eq hB v_threshold v_reset soft_reset detach_reset
    sg_fn dS dV H T N M hT hj]
  rw [multistep_if_backward, runBwdGrid_dv0 hB]
  simp [hj, div_mem_range_cdiv hB hj, gradVInit, Nat.pos_iff_ne_zero.mp hT]

/-- Witness for C3 at concrete inputs. -/
theorem C3_witness :
    (0 : ℕ) < 2 ∧ (1 : ℕ) < 3 ∧ (0 : ℕ) < 3 ∧
    (multistep_if_backward 1 0 true false exSg exX exX exX 3 3 2 exMB).dv0 1 =
      (multistep_if_backward 1 0 true false exSg exX exX exX 3 3 2 exMB).dx 0 1 :=
  ⟨by decide, by decide, by decide,
    C3_grad_v_init_is_last_dH 1 0 true false exSg exX exX exX 3 3 2 exMB
      (by decide) 1 (by decide) (by decide)⟩

/-- C10: with an empty time axis (`T = 0`) the backward launch performs no loop
iteration: the `grad_x_seq` buffer is left exactly as allocated (no store
happens) and `grad_v_init` is the still-zero accumulator on every valid
channel, for every choice of parameters and surrogate function. -/
theorem C10_backward_empty_time (v_threshold v_reset : ℚ)
    (soft_reset detach_reset : Bool) (sg_fn : ℚ → ℚ) (dS dV H : ℕ → ℕ → ℚ)
    (N B : ℕ) (M : BwdMem) (hB : 0 < B) :
    (∀ t j,
      (multistep_if_backward v_threshold v_reset soft_reset detach_reset sg_fn
        dS dV H 0 N B M).dx t j = M.dx t j) ∧
    (∀ j, j < N →
      (multistep_if_backward v_threshold v_reset soft_reset detach_reset sg_fn
        dS dV H 0 N B M).dv0 j = 0) := by
  constructor
  · intro t j
    rw [multistep_if_backward, runBwdGrid_dx hB]
    simp
  · intro j hj
    rw [multistep_if_backward, runBwdGrid_dv0 hB]
    simp [hj, div_mem_range_cdiv hB hj, gradVInit]

/-- Witness for C10 at concrete inputs. -/
theorem C10_witness :
    (0 : ℕ) < 2 ∧
    ((∀ t j,
      (multistep_if_backward 1 0 false true exSg exX exX exX 0 3 2 exMB).dx t j
        = exMB.dx t j) ∧
    (∀ j, j < 3 →
      (multistep_if_backward 1 0 false true exSg exX exX exX 0 3 2 exMB).dv0 j
        = 0)) :=
  ⟨by decide,
    C10_backward_empty_time 1 0 false true exSg exX exX exX 3 2 exMB (by decide)⟩

/-! ### C4, C7, C9 -/

/-- A second concrete garbage content, different from `exM`. -/
def exM2 : FwdMem := ⟨fun _ _ => 88, fun _ _ => 88, fun _ _ => 88⟩

/-- C4: the inference-variant launch produces values for `S` and `V` identical
to the training-variant launch on the same inputs (even starting from
different fresh-buffer garbage), and it never writes `H`: its `h` buffer is
exactly the initial memory. -/
theorem C4_inference_matches_training (v_threshold v_reset : ℚ)
    (soft_reset : Bool) (X : ℕ → ℕ → ℚ) (V0 : ℕ → ℚ) (T N B : ℕ)
    (M₁ M₂ : FwdMem) (hB : 0 < B) (t j : ℕ) (ht : t < T) (hj : j < N) :
    ((multistep_if_inference v_threshold v_reset soft_reset X V0 T N B M₁).s t j
      = (multistep_if_forward v_threshold v_reset soft_reset X V0 T N B M₂).s t j) ∧
    ((multistep_if_inference v_threshold v_reset soft_reset X V0 T N B M₁).v t j
      = (multistep_if_forward v_threshold v_reset soft_reset X V0 T N B M₂).v t j) ∧
    (∀ u i,
      (multistep_if_inference v_threshold v_reset soft_reset X V0 T N B M₁).h u i
        = M₁.h u i) := by
  refine ⟨?_, ?_, fun u i => ?_⟩
  · rw [multistep_if_inference, multistep_if_forward, runFwdGrid_s hB,
      runFwdGrid_s hB]
    simp [ht, hj, div_mem_range_cdiv hB hj]
  · rw [multistep_if_inference, multistep_if_forward, runFwdGrid_v hB,
      runFwdGrid_v hB]
    simp [ht, hj, div_mem_range_cdiv hB hj]
  · rw [multistep_if_inference, runFwdGrid_h hB]
    simp

/-- Witness for C4 at concrete inputs. -/
theorem C4_witness :
    (0 : ℕ) < 2 ∧ (1 : ℕ) < 2 ∧ (2 : ℕ) < 3 ∧
    (((multistep_if_inference 1 (1/4) false exX exV0 2 3 2 exM).s 1 2
      = (multistep_if_forward 1 (1/4) false exX exV0 2 3 2 exM2).s 1 2) ∧
    ((multistep_if_inference 1 (1/4) false exX exV0 2 3 2 exM).v 1 2
      = (multistep_if_forward 1 (1/4) false exX exV0 2 3 2 exM2).v 1 2) ∧
    (∀ u i,
      (multistep_if_inference 1 (1/4) false exX exV0 2 3 2 exM).h u i
        = exM.h u i)) :=
  ⟨by decide, by decide, by decide,
    C4_inference_matches_training 1 (1/4) false exX exV0 2 3 2 exM exM2
      (by decide) 1 2 (by decide) (by decide)⟩

/-- C7: in the op wrapper, `v_reset = none` selects soft reset (the kernels
receive `soft_reset = true` and `v_reset = 0`) and `v_reset = some r` selects
hard reset to `r`; when no input needs a gradient the inference variant runs
and nothing is saved (`ctx = none`), otherwise the training variant runs and
`H` plus the scalar parameters and `sg_fn` are retained; the paired backward
call returns the two kernel gradients and `None` markers for the four
non-tensor inputs. -/
theorem C7_wrapper_contract (x_seq : ℕ → ℕ → ℚ) (v_init : ℕ → ℚ)
    (v_threshold r : ℚ) (v_reset : Option ℚ) (detach_reset : Bool)
    (sg_fn : ℚ → ℚ) (T N B : ℕ) (M : FwdMem) (MB : BwdMem)
    (grad_s_seq grad_v_seq : ℕ → ℕ → ℚ) (ctx : IFContext) :
    (MultiStepIFNodePTT_forward x_seq v_init v_threshold none detach_reset
        sg_fn true T N B M =
      { s_seq := (multistep_if_forward v_threshold 0 true x_seq v_init T N B M).s,
        v_seq := (multistep_if_forward v_threshold 0 true x_seq v_init T N B M).v,
        ctx := some
          { h_seq := (multistep_if_forward v_threshold 0 true x_seq v_init T N B M).h,
            v_threshold := v_threshold, v_reset := 0, soft_reset := true,
            detach_reset := detach_reset, sg_fn := sg_fn } }) ∧
    (MultiStepIFNodePTT_forward x_seq v_init v_threshold (some r) detach_reset
        sg_fn true T N B M =
      { s_seq := (multistep_if_forward v_threshold r false x_seq v_init T N B M).s,
        v_seq := (multistep_if_forward v_threshold r false x_seq v_init T N B M).v,
        ctx := some
          { h_seq := (multistep_if_forward v_threshold r false x_seq v_init T N B M).h,
            v_threshold := v_threshold, v_reset := r, soft_reset := false,
            detach_reset := detach_reset, sg_fn := sg_fn } }) ∧
    (MultiStepIFNodePTT_forward x_seq v_init v_threshold v_reset detach_reset
        sg_fn false T N B M =
      { s_seq := (multistep_if_inference v_threshold (v_reset.getD 0)
          v_reset.isNone x_seq v_init T N B M).s,
        v_seq := (multistep_if_inference v_threshold (v_reset.getD 0)
          v_reset.isNone x_seq v_init T N B M).v,
        ctx := none }) ∧
    (MultiStepIFNodePTT_backward ctx grad_s_seq grad_v_seq T N B MB =
      { grad_x_seq := (multistep_if_backward ctx.v_threshold ctx.v_reset
          ctx.soft_reset ctx.detach_reset ctx.sg_fn grad_s_seq grad_v_seq
          ctx.h_seq T N B MB).dx,
        grad_v_init := (multistep_if_backward ctx.v_threshold ctx.v_reset
          ctx.soft_reset ctx.detach_reset ctx.sg_fn grad_s_seq grad_v_seq
          ctx.h_seq T N B MB).dv0,
        grad_v_threshold := none, grad_v_reset := none,
        grad_detach_reset := none, grad_sg_fn := none }) :=
  ⟨rfl, rfl, rfl, rfl⟩

/-- C9: the forward path of the op wrapper produces `S` and `V` independent of
`detach_reset` (the forward kernels take no such parameter; the flag is only
retained for backward), for either value of `needs_input_grad`. -/
theorem C9_forward_independent_of_detach (x_seq : ℕ → ℕ → ℚ) (v_init : ℕ → ℚ)
    (v_threshold : ℚ) (v_reset : Option ℚ) (d₁ d₂ : Bool) (sg_fn : ℚ → ℚ)
    (needs_input_grad : Bool) (T N B : ℕ) (M : FwdMem) :
    ((MultiStepIFNodePTT_forward x_seq v_init v_threshold v_reset d₁ sg_fn
        needs_input_grad T N B M).s_seq =
      (MultiStepIFNodePTT_forward x_seq v_init v_threshold v_reset d₂ sg_fn
        needs_input_grad T N B M).s_seq) ∧
    ((MultiStepIFNodePTT_forward x_seq v_init v_threshold v_reset d₁ sg_fn
        needs_input_grad T N B M).v_seq =
      (MultiStepIFNodePTT_forward x_seq v_init v_threshold v_reset d₂ sg_fn
        needs_input_grad T N B M).v_seq) := by
  cases needs_input_grad <;> exact ⟨rfl, rfl⟩

/-! ### C8 -/

theorem vPre_soft_vr (v_threshold vr₁ vr₂ : ℚ) (x : ℕ → ℚ) (v0 : ℚ) (t : ℕ) :
    vPre v_threshold vr₁ true x v0 t = vPre v_threshold vr₂ true x v0 t := by
  induction t with
  | zero => rfl
  | succ t ih => simp [vPre, resetPotential, ih]

theorem runFwdBlock_soft_vr (v_threshold vr₁ vr₂ : ℚ)
    (save_intermediates : Bool) (X : ℕ → ℕ → ℚ) (V0 : ℕ → ℚ) (T N B : ℕ)
    (M : FwdMem) (pid : ℕ) :
    runFwdBlock v_threshold vr₁ true save_intermediates X V0 T N B M pid =
      runFwdBlock v_threshold vr₂ true save_intermediates X V0 T N B M pid := by
  have hpre : ∀ j t, vPre v_threshold vr₁ true (laneX N X j) (laneV0 N V0 j) t =
      vPre v_threshold vr₂ true (laneX N X j) (laneV0 N V0 j) t :=
    fun j t => vPre_soft_vr v_threshold vr₁ vr₂ _ _ t
  refine FwdMem.ext ?_ ?_ ?_
  · funext t j
    simp [runFwdBlock, blockWrite, sVal, hVal, heaviside, hpre j]
  · funext t j
    simp [runFwdBlock, blockWrite, vVal, hpre j]
  · cases save_intermediates with
    | false => rfl
    | true =>
      funext t j
      simp [runFwdBlock, blockWrite, hVal, hpre j]

theorem gradH_soft_vr (v_threshold vr₁ vr₂ : ℚ) (detach_reset : Bool)
    (sg_fn : ℚ → ℚ) (grad_s grad_v h : ℕ → ℚ) (T : ℕ) (t : ℕ) :
    gradH v_threshold vr₁ true detach_reset sg_fn grad_s grad_v h T t =
      gradH v_threshold vr₂ true detach_reset sg_fn grad_s grad_v h T t := by
  suffices key : ∀ k t, T - t ≤ k →
      gradH v_threshold vr₁ true detach_reset sg_fn grad_s grad_v h T t =
        gradH v_threshold vr₂ true detach_reset sg_fn grad_s grad_v h T t by
    exact key (T - t) t le_rfl
  intro k
  induction k with
  | zero =>
    intro t hk
    conv_lhs => rw [gradH]
    conv_rhs => rw [gradH]
    have hlt : ¬ (t + 1 < T) := by omega
    simp [hlt]
  | succ k ih =>
    intro t hk
    conv_lhs => rw [gradH]
    conv_rhs => rw [gradH]
    by_cases hlt : t + 1 < T
    · simp only [hlt, dif_pos]
      rw [ih (t + 1) (by omega)]
      simp
    · simp [hlt]

theorem gradVInit_soft_vr (v_threshold vr₁ vr₂ : ℚ) (detach_reset : Bool)
    (sg_fn : ℚ → ℚ) (grad_s grad_v h : ℕ → ℚ) (T : ℕ) :
    gradVInit v_threshold vr₁ true detach_reset sg_fn grad_s grad_v h T =
      gradVInit v_threshold vr₂ true detach_reset sg_fn grad_s grad_v h T := by
  rw [gradVInit, gradVInit, gradH_soft_vr v_threshold vr₁ vr₂]

theorem runBwdBlock_soft_vr (v_threshold vr₁ vr₂ : ℚ) (detach_reset : Bool)
    (sg_fn : ℚ → ℚ) (dS dV H : ℕ → ℕ → ℚ) (T N B : ℕ) (M : BwdMem) (pid : ℕ) :
    runBwdBlock v_threshold vr₁ true detach_reset sg_fn dS dV H T N B M pid =
      runBwdBlock v_threshold vr₂ true detach_reset sg_fn dS dV H T N B M pid := by
  refine BwdMem.ext ?_ ?_
  · funext t j
    simp [runBwdBlock, blockWrite, gradH_soft_vr v_threshold vr₁ vr₂]
  · funext j
    simp [runBwdBlock, blockWriteRow, gradVInit_soft_vr v_threshold vr₁ vr₂]

/-- C8: with `soft_reset = true`, every output of the forward launches (`S`,
`V`, `H`, training and inference variants alike) and of the backward launch
(`dX`, `dV0`) is the same for any two values of `v_reset`: the reset target is
only read in the hard-reset branches. -/
theorem C8_soft_reset_ignores_v_reset (v_threshold vr₁ vr₂ : ℚ)
    (detach_reset : Bool) (sg_fn : ℚ → ℚ) (X dS dV H : ℕ → ℕ → ℚ)
    (V0 : ℕ → ℚ) (T N B : ℕ) (M : FwdMem) (MB : BwdMem) :
    (multistep_if_forward v_threshold vr₁ true X V0 T N B M =
      multistep_if_forward v_threshold vr₂ true X V0 T N B M) ∧
    (multistep_if_inference v_threshold vr₁ true X V0 T N B M =
      multistep_if_inference v_threshold vr₂ true X V0 T N B M) ∧
    (multistep_if_backward v_threshold vr₁ true detach_reset sg_fn dS dV H T N B MB =
      multistep_if_backward v_threshold vr₂ true detach_reset sg_fn dS dV H T N B MB) := by
  have hf : ∀ (si : Bool) (pids : List ℕ) (M : FwdMem),
      runFwdGrid v_threshold vr₁ true si X V0 T N B M pids =
        runFwdGrid v_threshold vr₂ true si X V0 T N B M pids := by
    intro si pids
    induction pids with
    | nil => intro M; rfl
    | cons p ps ih =>
      intro M
      show runFwdGrid v_threshold vr₁ true si X V0 T N B
          (runFwdBlock v_threshold vr₁ true si X V0 T N B M p) ps =
        runFwdGrid v_threshold vr₂ true si X V0 T N B
          (runFwdBlock v_threshold vr₂ true si X V0 T N B M p) ps
      rw [runFwdBlock_soft_vr v_threshold vr₁ vr₂, ih]
  have hb : ∀ (pids : List ℕ) (M : BwdMem),
      runBwdGrid v_threshold vr₁ true detach_reset sg_fn dS dV H T N B M pids =
        runBwdGrid v_threshold vr₂ true detach_reset sg_fn dS dV H T N B M pids := by
    intro pids
    induction pids with
    | nil => intro M; rfl
    | cons p ps ih =>
      intro M
      show runBwdGrid v_threshold vr₁ true detach_reset sg_fn dS dV H T N B
          (runBwdBlock v_threshold vr₁ true detach_reset sg_fn dS dV H T N B M p) ps =
        runBwdGrid v_threshold vr₂ true detach_reset sg_fn dS dV H T N B
          (runBwdBlock v_threshold vr₂ true detach_reset sg_fn dS dV H T N B M p) ps
      rw [runBwdBlock_soft_vr v_threshold vr₁ vr₂, ih]
  exact ⟨hf true _ M, hf false _ M, hb _ MB⟩

/-! ### C5 -/

/-- C5: the channel-block size is a pure execution-granularity knob: for any
two positive block sizes the launched forward pass produces the same `S`, `V`,
`H` at every valid position and the launched backward pass the same `dX`,
`dV0`; moreover, for a fixed block size, executing the blocks in any order
(any permutation of the program-id list) yields identical memories. -/
theorem C5_block_partition_invariance (v_threshold v_reset : ℚ)
    (soft_reset detach_reset save_intermediates : Bool) (sg_fn : ℚ → ℚ)
    (X dS dV H : ℕ → ℕ → ℚ) (V0 : ℕ → ℚ) (T N B₁ B₂ B : ℕ)
    (M : FwdMem) (MB : BwdMem) (pids₁ pids₂ : List ℕ)
    (hB₁ : 0 < B₁) (hB₂ : 0 < B₂) (hB : 0 < B) (hperm : pids₁.Perm pids₂)
    (t j : ℕ) (ht : t < T) (hj : j < N) :
    ((multistep_if_forward v_threshold v_reset soft_reset X V0 T N B₁ M).s t j
      = (multistep_if_forward v_threshold v_reset soft_reset X V0 T N B₂ M).s t j) ∧
    ((multistep_if_forward v_threshold v_reset soft_reset X V0 T N B₁ M).v t j
      = (multistep_if_forward v_threshold v_reset soft_reset X V0 T N B₂ M).v t j) ∧
    ((multistep_if_forward v_threshold v_reset soft_reset X V0 T N B₁ M).h t j
      = (multistep_if_forward v_threshold v_reset soft_reset X V0 T N B₂ M).h t j) ∧
    ((multistep_if_backward v_threshold v_reset soft_reset detach_reset sg_fn
        dS dV H T N B₁ MB).dx t j
      = (multistep_if_backward v_threshold v_reset soft_reset detach_reset sg_fn
        dS dV H T N B₂ MB).dx t j) ∧
    ((multistep_if_backward v_threshold v_reset soft_reset detach_reset sg_fn
        dS dV H T N B₁ MB).dv0 j
      = (multistep_if_backward v_threshold v_reset soft_reset detach_reset sg_fn
        dS dV H T N B₂ MB).dv0 j) ∧
    (runFwdGrid v_threshold v_reset soft_reset save_intermediates X V0 T N B M pids₁
      = runFwdGrid v_threshold v_reset soft_reset save_intermediates X V0 T N B M pids₂) ∧
    (runBwdGrid v_threshold v_reset soft_reset detach_reset sg_fn dS dV H T N B MB pids₁
      = runBwdGrid v_threshold v_reset soft_reset detach_reset sg_fn dS dV H T N B MB pids₂) := by
  refine ⟨?_, ?_, ?_, ?_, ?_, ?_, ?_⟩
  · rw [multistep_if_forward, multistep_if_forward, runFwdGrid_s hB₁, runFwdGrid_s hB₂]
    simp [ht, hj, div_mem_range_cdiv hB₁ hj, div_mem_range_cdiv hB₂ hj]
  · rw [multistep_if_forward, multistep_if_forward, runFwdGrid_v hB₁, runFwdGrid_v hB₂]
    simp [ht, hj, div_mem_range_cdiv hB₁ hj, div_mem_range_cdiv hB₂ hj]
  · rw [multistep_if_forward, multistep_if_forward, runFwdGrid_h hB₁, runFwdGrid_h hB₂]
    simp [ht, hj, div_mem_range_cdiv hB₁ hj, div_mem_range_cdiv hB₂ hj]
  · rw [multistep_if_backward, multistep_if_backward, runBwdGrid_dx hB₁, runBwdGrid_dx hB₂]
    simp [ht, hj, div_mem_range_cdiv hB₁ hj, div_mem_range_cdiv hB₂ hj]
  · rw [multistep_if_backward, multistep_if_backward, runBwdGrid_dv0 hB₁, runBwdGrid_dv0 hB₂]
    simp [hj, div_mem_range_cdiv hB₁ hj, div_mem_range_cdiv hB₂ hj]
  · refine FwdMem.ext ?_ ?_ ?_
    · funext u i
      rw [runFwdGrid_s hB, runFwdGrid_s hB]
      simp [hperm.mem_iff]
    · funext u i
      rw [runFwdGrid_v hB, runFwdGrid_v hB]
      simp [hperm.mem_iff]
    · funext u i
      rw [runFwdGrid_h hB, runFwdGrid_h hB]
      simp [hperm.mem_iff]
  · refine BwdMem.ext ?_ ?_
    · funext u i
      rw [runBwdGrid_dx hB, runBwdGrid_dx hB]
      simp [hperm.mem_iff]
    · funext i
      rw [runBwdGrid_dv0 hB, runBwdGrid_dv0 hB]
      simp [hperm.mem_iff]

/-- Witness for C5 at concrete inputs (block sizes 2 and 3 over 5 channels,
and the two-block grid run in both orders). -/
theorem C5_witness :
    (0 : ℕ) < 2 ∧ (0 : ℕ) < 3 ∧ (0 : ℕ) < 2 ∧ List.Perm [0, 1, 2] [2, 0, 1] ∧
    (1 : ℕ) < 2 ∧ (4 : ℕ) < 5 ∧
    (((multistep_if_forward 1 (1/4) false exX exV0 2 5 2 exM).s 1 4
      = (multistep_if_forward 1 (1/4) false exX exV0 2 5 3 exM).s 1 4) ∧
    ((multistep_if_forward 1 (1/4) false exX exV0 2 5 2 exM).v 1 4
      = (multistep_if_forward 1 (1/4) false exX exV0 2 5 3 exM).v 1 4) ∧
    ((multistep_if_forward 1 (1/4) false exX exV0 2 5 2 exM).h 1 4
      = (multistep_if_forward 1 (1/4) false exX exV0 2 5 3 exM).h 1 4) ∧
    ((multistep_if_backward 1 (1/4) false true exSg exX exX exX 2 5 2 exMB).dx 1 4
      = (multistep_if_backward 1 (1/4) false true exSg exX exX exX 2 5 3 exMB).dx 1 4) ∧
    ((multistep_if_backward 1 (1/4) false true exSg exX exX exX 2 5 2 exMB).dv0 4
      = (multistep_if_backward 1 (1/4) false true exSg exX exX exX 2 5 3 exMB).dv0 4) ∧
    (runFwdGrid 1 (1/4) false true exX exV0 2 5 2 exM [0, 1, 2]
      = runFwdGrid 1 (1/4) false true exX exV0 2 5 2 exM [2, 0, 1]) ∧
    (runBwdGrid 1 (1/4) false true exSg exX exX exX 2 5 2 exMB [0, 1, 2]
      = runBwdGrid 1 (1/4) false true exSg exX exX exX 2 5 2 exMB [2, 0, 1])) :=
  ⟨by decide, by decide, by decide, by decide, by decide, by decide,
    C5_block_partition_invariance 1 (1/4) false true true exSg exX exX exX exX
      exV0 2 5 2 3 2 exM exMB [0, 1, 2] [2, 0, 1] (by decide) (by decide)
      (by decide) (by decide) 1 4 (by decide) (by decide)⟩

/-! ### C6 -/

/-- C6: boundary masking.  For a final partial block (any `j ≥ N`): the lane
loads read zero, and no store lands — the forward and backward launches leave
every out-of-range position of every output buffer exactly as allocated.
Moreover the valid channels are unaffected by the padding: the launched
outputs depend only on the input columns `j < N` (any two inputs agreeing on
the valid columns give identical output memories, for every block size). -/
theorem C6_boundary_masking (v_threshold v_reset : ℚ)
    (soft_reset detach_reset : Bool) (sg_fn : ℚ → ℚ)
    (X₁ X₂ dS₁ dS₂ dV₁ dV₂ H₁ H₂ : ℕ → ℕ → ℚ) (V0₁ V0₂ : ℕ → ℚ)
    (T N B : ℕ) (M : FwdMem) (MB : BwdMem) (hB : 0 < B)
    (hX : ∀ t j, j < N → X₁ t j = X₂ t j)
    (hV0 : ∀ j, j < N → V0₁ j = V0₂ j)
    (hdS : ∀ t j, j < N → dS₁ t j = dS₂ t j)
    (hdV : ∀ t j, j < N → dV₁ t j = dV₂ t j)
    (hH : ∀ t j, j < N → H₁ t j = H₂ t j) :
    (∀ i u, N ≤ i → laneX N X₁ i u = 0 ∧ laneV0 N V0₁ i = 0) ∧
    (∀ u i, N ≤ i →
      (multistep_if_forward v_threshold v_reset soft_reset X₁ V0₁ T N B M).s u i
          = M.s u i ∧
      (multistep_if_forward v_threshold v_reset soft_reset X₁ V0₁ T N B M).v u i
          = M.v u i ∧
      (multistep_if_forward v_threshold v_reset soft_reset X₁ V0₁ T N B M).h u i
          = M.h u i ∧
      (multistep_if_backward v_threshold v_reset soft_reset detach_reset sg_fn
          dS₁ dV₁ H₁ T N B MB).dx u i = MB.dx u i ∧
      (multistep_if_backward v_threshold v_reset soft_reset detach_reset sg_fn
          dS₁ dV₁ H₁ T N B MB).dv0 i = MB.dv0 i) ∧
    (multistep_if_forward v_threshold v_reset soft_reset X₁ V0₁ T N B M
      = multistep_if_forward v_threshold v_reset soft_reset X₂ V0₂ T N B M) ∧
    (multistep_if_backward v_threshold v_reset soft_reset detach_reset sg_fn
        dS₁ dV₁ H₁ T N B MB
      = multistep_if_backward v_threshold v_reset soft_reset detach_reset sg_fn
        dS₂ dV₂ H₂ T N B MB) := by
  have hlx : ∀ (Y₁ Y₂ : ℕ → ℕ → ℚ), (∀ t j, j < N → Y₁ t j = Y₂ t j) →
      ∀ j, laneX N Y₁ j = laneX N Y₂ j := by
    intro Y₁ Y₂ hY j
    funext u
    by_cases hj : j < N <;> simp [laneX, hj, hY u j]
  have hlv : ∀ j, laneV0 N V0₁ j = laneV0 N V0₂ j := by
    intro j
    by_cases hj : j < N <;> simp [laneV0, hj, hV0 j]
  refine ⟨?_, ?_, ?_, ?_⟩
  · intro i u hi
    simp [laneX, laneV0, Nat.not_lt.mpr hi]
  · intro u i hi
    have hni : ¬ (i < N) := Nat.not_lt.mpr hi
    refine ⟨?_, ?_, ?_, ?_, ?_⟩
    · rw [multistep_if_forward, runFwdGrid_s hB]; simp [hni]
    · rw [multistep_if_forward, runFwdGrid_v hB]; simp [hni]
    · rw [multistep_if_forward, runFwdGrid_h hB]; simp [hni]
    · rw [multistep_if_backward, runBwdGrid_dx hB]; simp [hni]
    · rw [multistep_if_backward, runBwdGrid_dv0 hB]; simp [hni]
  · refine FwdMem.ext ?_ ?_ ?_ <;> funext u i
    · rw [multistep_if_forward, multistep_if_forward, runFwdGrid_s hB,
        runFwdGrid_s hB, hlx X₁ X₂ hX i, hlv i]
    · rw [multistep_if_forward, multistep_if_forward, runFwdGrid_v hB,
        runFwdGrid_v hB, hlx X₁ X₂ hX i, hlv i]
    · rw [multistep_if_forward, multistep_if_forward, runFwdGrid_h hB,
        runFwdGrid_h hB, hlx X₁ X₂ hX i, hlv i]
  · refine BwdMem.ext ?_ ?_
    · funext u i
      rw [multistep_if_backward, multistep_if_backward, runBwdGrid_dx hB,
        runBwdGrid_dx hB, hlx dS₁ dS₂ hdS i, hlx dV₁ dV₂ hdV i, hlx H₁ H₂ hH i]
    · funext i
      rw [multistep_if_backward, multistep_if_backward, runBwdGrid_dv0 hB,
        runBwdGrid_dv0 hB, hlx dS₁ dS₂ hdS i, hlx dV₁ dV₂ hdV i, hlx H₁ H₂ hH i]

/-- A padded variant of `exX`: same first three columns, garbage beyond. -/
def exXpad : ℕ → ℕ → ℚ := fun t j => if j < 3 then exX t j else 99

/-- A padded variant of `exV0`: same first three entries, garbage beyond. -/
def exV0pad : ℕ → ℚ := fun j => if j < 3 then exV0 j else 99

/-- Witness for C6 at concrete inputs (`N = 3`, block size 2, so the second
block is partial). -/
theorem C6_witness :
    (0 : ℕ) < 2 ∧
    ((∀ i u, 3 ≤ i → laneX 3 exX i u = 0 ∧ laneV0 3 exV0 i = 0) ∧
    (∀ u i, 3 ≤ i →
      (multistep_if_forward 1 0 true exX exV0 2 3 2 exM).s u i = exM.s u i ∧
      (multistep_if_forward 1 0 true exX exV0 2 3 2 exM).v u i = exM.v u i ∧
      (multistep_if_forward 1 0 true exX exV0 2 3 2 exM).h u i = exM.h u i ∧
      (multistep_if_backward 1 0 true false exSg exX exX exX 2 3 2 exMB).dx u i
          = exMB.dx u i ∧
      (multistep_if_backward 1 0 true false exSg exX exX exX 2 3 2 exMB).dv0 i
          = exMB.dv0 i) ∧
    (multistep_if_forward 1 0 true exX exV0 2 3 2 exM
      = multistep_if_forward 1 0 true exXpad exV0pad 2 3 2 exM) ∧
    (multistep_if_backward 1 0 true false exSg exX exX exX 2 3 2 exMB
      = multistep_if_backward 1 0 true false exSg exXpad exXpad exXpad 2 3 2 exMB)) :=
  ⟨by decide,
    C6_boundary_masking 1 0 true false exSg exX exXpad exX exXpad exX exXpad
      exX exXpad exV0 exV0pad 2 3 2 exM exMB (by decide)
      (fun t j hj => by simp [exXpad, hj])
      (fun j hj => by simp [exV0pad, hj])
      (fun t j hj => by simp [exXpad, hj])
      (fun t j hj => by simp [exXpad, hj])
      (fun t j hj => by simp [exXpad, hj])⟩

end SpikingJelly
